import Mathlib

/-!
# satorunooshie/asn: certificate-chain trust resolver

A shallow embedding of `fetcher.go` and `key_provider.go`.

* Byte slices (`[]byte`) are lists of bytes; `bytes.Equal` is list equality
  (in Go a nil slice and an empty slice are equal under `bytes.Equal`).
* A slice whose nil-ness is tested by the code (`FileRootCAFetcher.rootCA`) is an
  `Option (List _)`: `none` is the nil slice.
* Effects are explicit: the filesystem and the HTTP client are oracles over a world
  state, every function returns the new state, and the calls made to the collaborators
  (`os.ReadFile`, `fetch`, `sink.Key`, `Certificate.Verify`) are returned as logs.
* `encoding/base64` decoding and `crypto/x509` are collaborators given as oracles.
-/

namespace Asn

/-! ## Basic data -/

/-- Go `[]byte`. -/
abbrev Bytes := List UInt8

/-- Go `[][]byte` that may be nil: `none` is the nil slice. -/
abbrev Slices := Option (List Bytes)

/-- Elements ranged over by `for _, x := range s` (none for a nil slice). -/
def Slices.elems : Slices → List Bytes
  | none => []
  | some l => l

/-- Go `append(s, x)` on a possibly nil slice; the result is never nil. -/
def Slices.append : Slices → Bytes → Slices
  | none, x => some [x]
  | some l, x => some (l ++ [x])

/-- Go `error` values: `errors.New(text)` of this package, or a value handed over by a
collaborator (base64, x509, os, net/http). -/
inductive Error where
  | new (text : String)
  | external (code : Nat)
deriving DecidableEq, Repr

/-! ## encoding/base64, StdEncoding.Encode -/

/-- The alphabet of `base64.StdEncoding`. -/
def encodeStd : List UInt8 :=
  [65, 66, 67, 68, 69, 70, 71, 72, 73, 74, 75, 76, 77, 78, 79, 80, 81, 82, 83, 84, 85, 86,
   87, 88, 89, 90,
   97, 98, 99, 100, 101, 102, 103, 104, 105, 106, 107, 108, 109, 110, 111, 112, 113, 114,
   115, 116, 117, 118, 119, 120, 121, 122,
   48, 49, 50, 51, 52, 53, 54, 55, 56, 57, 43, 47]

/-- The padding character `=` of `base64.StdEncoding`. -/
def StdPadding : UInt8 := 61

/-- Alphabet lookup `enc.encode[v & 0x3F]`. -/
def encodeChar (v : Nat) : UInt8 := encodeStd.getD (v % 64) 0

/-- What `base64.StdEncoding.Encode(dbuf, b)` writes into a buffer of
`base64.StdEncoding.EncodedLen(len(b))` bytes: full 3-byte groups become 4 characters,
a remainder of 1 or 2 bytes is padded. -/
def StdEncoding.Encode : Bytes → Bytes
  | a :: b :: c :: rest =>
    let val := a.toNat * 65536 + b.toNat * 256 + c.toNat
    encodeChar (val / 262144) :: encodeChar (val / 4096) :: encodeChar (val / 64) ::
      encodeChar val :: StdEncoding.Encode rest
  | [a, b] =>
    let val := a.toNat * 65536 + b.toNat * 256
    [encodeChar (val / 262144), encodeChar (val / 4096), encodeChar (val / 64), StdPadding]
  | [a] =>
    let val := a.toNat * 65536
    [encodeChar (val / 262144), encodeChar (val / 4096), StdPadding, StdPadding]
  | [] => []

/-! ## fetcher.go -/

/-- What `Fetch(ctx) ([][]byte, error)` returns. -/
structure FetchResult where
  rootCAs : Slices
  err : Option Error
deriving DecidableEq, Repr

/-- Interface `RootCAFetcher`: an implementation with state `φ` (the receiver together
with whatever of the outside world it consults) and its `Fetch` method. -/
structure RootCAFetcher (φ : Type) where
  Fetch : φ → FetchResult × φ

/-- Results of `n` successive `Fetch` calls starting in state `s`. -/
def RootCAFetcher.results {φ : Type} (F : RootCAFetcher φ) : φ → Nat → List FetchResult
  | _, 0 => []
  | s, n + 1 => (F.Fetch s).1 :: F.results (F.Fetch s).2 n

/-- State of the fetcher after `n` successive `Fetch` calls starting in state `s`. -/
def RootCAFetcher.after {φ : Type} (F : RootCAFetcher φ) : φ → Nat → φ
  | s, 0 => s
  | s, n + 1 => F.after (F.Fetch s).2 n

/-- Collaborator behind `HTTPRootCAFetcher.fetch`: for a URL and the current state of the
network `ω`, a response body or an error, and the next state. -/
structure HTTPClient (ω : Type) where
  fetch : String → ω → Except Error Bytes × ω

/-- Struct `HTTPRootCAFetcher` (the client is passed to `Fetch` as an oracle). -/
structure HTTPRootCAFetcher where
  urls : List String
deriving DecidableEq, Repr

/-- Constructor `NewHTTPRootCAFetcher(client, url, optional...)`. -/
def NewHTTPRootCAFetcher (url : String) (optional : List String) : HTTPRootCAFetcher :=
  ⟨[url] ++ optional⟩

/-- Outcome of `HTTPRootCAFetcher.Fetch`: the returned pair, the URLs handed to `fetch`
in order, and the network state afterwards. -/
structure HTTPFetchRun (ω : Type) where
  result : FetchResult
  requests : List String
  world : ω

/-- The `for _, url := range f.urls` loop of `HTTPRootCAFetcher.Fetch`, with the local
`rootCAs` accumulated so far and the requests made so far. -/
def HTTPRootCAFetcher.fetchLoop {ω : Type} (client : HTTPClient ω) :
    List String → List Bytes → List String → ω → HTTPFetchRun ω
  | [], rootCAs, reqs, w => ⟨⟨some rootCAs, none⟩, reqs, w⟩
  | url :: rest, rootCAs, reqs, w =>
    match client.fetch url w with
    | (Except.error err, w1) => ⟨⟨some rootCAs, some err⟩, reqs ++ [url], w1⟩
    | (Except.ok b, w1) =>
      HTTPRootCAFetcher.fetchLoop client rest (rootCAs ++ [StdEncoding.Encode b])
        (reqs ++ [url]) w1

/-- Method `HTTPRootCAFetcher.Fetch`: `rootCAs := make([][]byte, 0, len(f.urls))`, then the
loop. -/
def HTTPRootCAFetcher.Fetch {ω : Type} (client : HTTPClient ω) (f : HTTPRootCAFetcher)
    (w : ω) : HTTPFetchRun ω :=
  HTTPRootCAFetcher.fetchLoop client f.urls [] [] w

/-- Collaborator `os.ReadFile`: for a path and the current state of the filesystem `ω`,
the file content or an error, and the next state. -/
structure FileSystem (ω : Type) where
  ReadFile : String → ω → Except Error Bytes × ω

/-- Struct `FileRootCAFetcher`. -/
structure FileRootCAFetcher where
  paths : List String
  rootCA : Slices
deriving DecidableEq, Repr

/-- Constructor `NewFileRootCAFetcher(cerpath, optional...)`; `rootCA` starts nil. -/
def NewFileRootCAFetcher (cerpath : String) (optional : List String) : FileRootCAFetcher :=
  ⟨[cerpath] ++ optional, none⟩

/-- Outcome of `FileRootCAFetcher.Fetch`: the returned pair, the receiver afterwards, the
paths handed to `os.ReadFile` in order, and the filesystem state afterwards. -/
structure FileFetchRun (ω : Type) where
  result : FetchResult
  fetcher : FileRootCAFetcher
  reads : List String
  world : ω

/-- The `for _, path := range f.paths` loop of `FileRootCAFetcher.Fetch`; the loop appends
to the field `f.rootCA` itself. -/
def FileRootCAFetcher.fetchLoop {ω : Type} (os : FileSystem ω) :
    List String → FileRootCAFetcher → List String → ω → FileFetchRun ω
  | [], f, reads, w => ⟨⟨f.rootCA, none⟩, f, reads, w⟩
  | path :: rest, f, reads, w =>
    match os.ReadFile path w with
    | (Except.error err, w1) => ⟨⟨f.rootCA, some err⟩, f, reads ++ [path], w1⟩
    | (Except.ok b, w1) =>
      FileRootCAFetcher.fetchLoop os rest
        { f with rootCA := f.rootCA.append (StdEncoding.Encode b) } (reads ++ [path]) w1

/-- Method `FileRootCAFetcher.Fetch`: a non-nil `f.rootCA` is returned at once, otherwise
the configured files are read. -/
def FileRootCAFetcher.Fetch {ω : Type} (os : FileSystem ω) (f : FileRootCAFetcher)
    (w : ω) : FileFetchRun ω :=
  match f.rootCA with
  | some cached => ⟨⟨some cached, none⟩, f, [], w⟩
  | none => FileRootCAFetcher.fetchLoop os f.paths f [] w

/-- Struct `RawRootCAFetcher`. -/
structure RawRootCAFetcher where
  rootCA : List Bytes
deriving DecidableEq, Repr

/-- Constructor `NewRawRootCAFetcher(rootCA, optional...)`. -/
def NewRawRootCAFetcher (rootCA : Bytes) (optional : List Bytes) : RawRootCAFetcher :=
  ⟨[rootCA] ++ optional⟩

/-- Method `RawRootCAFetcher.Fetch`. -/
def RawRootCAFetcher.Fetch (f : RawRootCAFetcher) : FetchResult × RawRootCAFetcher :=
  (⟨some f.rootCA, none⟩, f)

/-- The static source as a `RootCAFetcher`. -/
def RawRootCAFetcher.impl : RootCAFetcher RawRootCAFetcher := ⟨RawRootCAFetcher.Fetch⟩

/-! ## key_provider.go -/

/-- Struct `verifiedKey`; `pubkey` has Go type `any` and `none` is its nil value. -/
structure verifiedKey (K : Type) where
  name : Bytes
  pubkey : Option K
deriving DecidableEq, Repr

/-- Struct `KeyProvider`; `fetcher` is the state of the `RootCAFetcher` it holds. -/
structure KeyProvider (K φ : Type) where
  trusted : verifiedKey K
  fetcher : φ
deriving DecidableEq, Repr

/-- Constructor `NewKeyProvider(fetcher)`: `trusted` is the zero `verifiedKey`. -/
def NewKeyProvider {K φ : Type} (fetcher : φ) : KeyProvider K φ :=
  ⟨⟨[], none⟩, fetcher⟩

/-- The two pools of `x509.VerifyOptions` used by the code. -/
structure VerifyOptions (C : Type) where
  Roots : List C
  Intermediates : List C
deriving DecidableEq, Repr

/-- Method `CertPool.AddCert`: a certificate already in the pool is not added again. -/
def CertPool.AddCert {C : Type} [DecidableEq C] (s : List C) (cert : C) : List C :=
  if cert ∈ s then s else s ++ [cert]

/-- Collaborators from `encoding/base64` and `crypto/x509` for certificates `C` and public
keys `K`: `Decode` gives `dbuf[:n]` or the decoding error, `PublicKey` is the field
`cert.PublicKey` (possibly nil), `Verify` gives the error of `cert.Verify(opts)`. -/
structure X509 (C K : Type) where
  Decode : Bytes → Except Error Bytes
  ParseCertificate : Bytes → Except Error C
  PublicKey : C → Option K
  Verify : C → VerifyOptions C → Option Error

/-- What `FetchKeys` reads from `sig.ProtectedHeaders()`: the algorithm and the entries
of the `x5c` chain in order. -/
structure Signature (A : Type) where
  Algorithm : A
  X509CertChain : List Bytes
deriving DecidableEq, Repr

/-- How a call ends: `return nil`, `return err`, or a nil-pointer panic. -/
inductive Return where
  | nil
  | err (e : Error)
  | panic
deriving DecidableEq, Repr

/-- Outcome of `KeyProvider.FetchKeys`: how it ended, the provider afterwards, the
`sink.Key(alg, key)` calls made, and the `key.Verify(verifyOpts)` call made if any. -/
structure FetchKeysRun (A K C φ : Type) where
  ret : Return
  provider : KeyProvider K φ
  sink : List (A × Option K)
  verified : Option (C × VerifyOptions C)

/-- Local variables of `FetchKeys` that live across loop iterations, with the state of
`p.fetcher`. -/
structure LoopVars (C φ : Type) where
  isApple : Bool
  label : Bytes
  key : Option C
  verifyOpts : VerifyOptions C
  fetcher : φ

/-- Method `KeyProvider.match`: one `Fetch`, then a search for a root equal to `chain`. -/
def KeyProvider.match_ {φ : Type} (F : RootCAFetcher φ) (s : φ) (chain : Bytes) :
    (Bool × Option Error) × φ :=
  match F.Fetch s with
  | (⟨_, some err⟩, s1) => ((false, some err), s1)
  | (⟨roots, none⟩, s1) => ((roots.elems.any (fun root => decide (root = chain)), none), s1)

/-- One iteration of the loop of `FetchKeys` at index `i` on entry `chain`: either the
call returns (left) or the loop goes on with updated variables (right). -/
def FetchKeys.body {A K C φ : Type} [DecidableEq C] (x : X509 C K) (F : RootCAFetcher φ)
    (p : KeyProvider K φ) (alg : A) (i : Nat) (chain : Bytes) (v : LoopVars C φ) :
    Except (FetchKeysRun A K C φ) (LoopVars C φ) :=
  if p.trusted.name = chain then
    Except.error ⟨Return.nil, ⟨p.trusted, v.fetcher⟩, [(alg, p.trusted.pubkey)], none⟩
  else
    match x.Decode chain with
    | Except.error err => Except.error ⟨Return.err err, ⟨p.trusted, v.fetcher⟩, [], none⟩
    | Except.ok der =>
      match x.ParseCertificate der with
      | Except.error err => Except.error ⟨Return.err err, ⟨p.trusted, v.fetcher⟩, [], none⟩
      | Except.ok cert =>
        match i with
        | 0 => Except.ok { v with label := chain, key := some cert }
        | _ + 1 =>
          match KeyProvider.match_ F v.fetcher chain with
          | ((_, some err), s1) => Except.error ⟨Return.err err, ⟨p.trusted, s1⟩, [], none⟩
          | ((true, none), s1) =>
            Except.ok { v with
              isApple := true
              verifyOpts := ⟨CertPool.AddCert v.verifyOpts.Roots cert,
                v.verifyOpts.Intermediates⟩
              fetcher := s1 }
          | ((false, none), s1) =>
            Except.ok { v with
              verifyOpts := ⟨v.verifyOpts.Roots,
                CertPool.AddCert v.verifyOpts.Intermediates cert⟩
              fetcher := s1 }

/-- The loop `for i := 0; i < certs.Len(); i++` of `FetchKeys` from index `i` on the
remaining entries. -/
def FetchKeys.loop {A K C φ : Type} [DecidableEq C] (x : X509 C K) (F : RootCAFetcher φ)
    (p : KeyProvider K φ) (alg : A) :
    Nat → List Bytes → LoopVars C φ → Except (FetchKeysRun A K C φ) (LoopVars C φ)
  | _, [], v => Except.ok v
  | i, chain :: rest, v =>
    match FetchKeys.body x F p alg i chain v with
    | Except.error r => Except.error r
    | Except.ok v1 => FetchKeys.loop x F p alg (i + 1) rest v1

/-- The error of `errors.New("certificate is not from Apple")`. -/
def errNotFromApple : Error := Error.new "certificate is not from Apple"

/-- Method `KeyProvider.FetchKeys` on the chain and algorithm of `sig`. -/
def KeyProvider.FetchKeys {A K C φ : Type} [DecidableEq C] (x : X509 C K)
    (F : RootCAFetcher φ) (p : KeyProvider K φ) (sig : Signature A) :
    FetchKeysRun A K C φ :=
  match FetchKeys.loop x F p sig.Algorithm 0 sig.X509CertChain
      ⟨false, [], none, ⟨[], []⟩, p.fetcher⟩ with
  | Except.error r => r
  | Except.ok v =>
    if v.isApple = false then
      ⟨Return.err errNotFromApple, ⟨p.trusted, v.fetcher⟩, [], none⟩
    else
      match v.key with
      | none => ⟨Return.panic, ⟨p.trusted, v.fetcher⟩, [], none⟩
      | some key =>
        match x.Verify key v.verifyOpts with
        | some err => ⟨Return.err err, ⟨p.trusted, v.fetcher⟩, [], some (key, v.verifyOpts)⟩
        | none =>
          ⟨Return.nil, ⟨⟨v.label, x.PublicKey key⟩, v.fetcher⟩,
            [(sig.Algorithm, x.PublicKey key)], some (key, v.verifyOpts)⟩

/-! ## Sample data -/

/-- A sample x509 collaborator: certificates and keys are byte strings, every non-empty
entry decodes to itself and parses, validation succeeds iff the roots pool is non-empty
and the leaf is not the byte string `[0]`. -/
def sampleX509 : X509 Bytes Bytes where
  Decode := fun b => Except.ok b
  ParseCertificate := fun der => if der = [] then Except.error (Error.external 1) else Except.ok der
  PublicKey := fun c => some (c ++ [7])
  Verify := fun c opts =>
    if opts.Roots = [] ∨ c = [0] then some (Error.external 2) else none

/-- A source whose every `Fetch` fails. -/
def failingFetcher : RootCAFetcher Unit := ⟨fun s => (⟨none, some (Error.external 3)⟩, s)⟩


/-- A fresh provider over a static source holding the single root `[82]`. -/
def freshProvider : KeyProvider Bytes RawRootCAFetcher :=
  NewKeyProvider (NewRawRootCAFetcher [82] [])

/-- A signature with chain leaf `[76]`, intermediate `[73]`, root `[82]`. -/
def goodSig : Signature String := ⟨"ES256", [[76], [73], [82]]⟩

/-- A signature with chain leaf `[76]` and an unrelated ancestor `[88]`. -/
def unrelatedSig : Signature String := ⟨"ES256", [[76], [88]]⟩

/-- A signature with chain leaf `[88]` and root `[82]`. -/
def otherSig : Signature String := ⟨"ES256", [[88], [82]]⟩

/-- A signature whose chain carries the certificate `[88]` at index 2. -/
def deepSig : Signature String := ⟨"ES256", [[65], [66], [88]]⟩

/-- A signature whose chain is the root `[82]` twice. -/
def twiceSig : Signature String := ⟨"ES256", [[82], [82]]⟩

/-- The provider after a first, fully validated call on `goodSig`. -/
def providerAfterGood : KeyProvider Bytes RawRootCAFetcher :=
  (KeyProvider.FetchKeys sampleX509 RawRootCAFetcher.impl freshProvider goodSig).provider

/-- The provider after a first, fully validated call on `otherSig`. -/
def providerAfterOther : KeyProvider Bytes RawRootCAFetcher :=
  (KeyProvider.FetchKeys sampleX509 RawRootCAFetcher.impl freshProvider otherSig).provider

/-! ## Spec-side vocabulary -/

/-- The certificate an entry decodes and parses to, if it does both. -/
def X509.certOf {C K : Type} (x : X509 C K) (chain : Bytes) : Option C :=
  match x.Decode chain with
  | Except.error _ => none
  | Except.ok der =>
    match x.ParseCertificate der with
    | Except.error _ => none
    | Except.ok cert => some cert

/-- Each chain entry at index 1 and above, paired with the result of the `Fetch` call
made for it when the loop of `FetchKeys` runs through the whole chain from fetcher
state `s`. -/
def ancestors {φ : Type} (F : RootCAFetcher φ) (s : φ) (chain : List Bytes) :
    List (Bytes × FetchResult) :=
  chain.tail.zip (F.results s chain.tail.length)

/-- The bodies obtained when the URLs are fetched in order from network state `w` and
every fetch succeeds, with the network state afterwards; `none` when some fetch fails. -/
def HTTPClient.serve {ω : Type} (client : HTTPClient ω) : List String → ω → Option (List Bytes × ω)
  | [], w => some ([], w)
  | url :: rest, w =>
    match client.fetch url w with
    | (Except.error _, _) => none
    | (Except.ok b, w1) =>
      match client.serve rest w1 with
      | none => none
      | some (bs, w2) => some (b :: bs, w2)

/-- Successive `Fetch` calls on a file-backed source, one per filesystem state in `ws`
(the state of the filesystem at the time of that call). -/
def FileRootCAFetcher.runs {ω : Type} (os : FileSystem ω) :
    FileRootCAFetcher → List ω → List (FileFetchRun ω)
  | _, [] => []
  | f, w :: ws =>
    FileRootCAFetcher.Fetch os f w :: FileRootCAFetcher.runs os (FileRootCAFetcher.Fetch os f w).fetcher ws

/-- A sample filesystem with two certificate files; in state `true` the file `b.cer` is
unreadable, in state `false` both files are readable. -/
def sampleFS : FileSystem Bool where
  ReadFile := fun path w =>
    if path = "a.cer" then (Except.ok [1, 2, 3], w)
    else if path = "b.cer" ∧ w = false then (Except.ok [4, 5, 6], w)
    else (Except.error (Error.external 4), w)

/-- A sample network: `u1` and `u2` answer, every other URL fails; the state counts the
requests made. -/
def sampleHTTP : HTTPClient Nat where
  fetch := fun url w =>
    if url = "u1" then (Except.ok [77, 97, 110], w + 1)
    else if url = "u2" then (Except.ok [77, 97], w + 1)
    else (Except.error (Error.external 5), w + 1)

/-! ## The fetchers -/

section Fetchers

variable {ω : Type}

theorem http_fetchLoop_error (client : HTTPClient ω) (pre : List String) :
    ∀ (u : String) (post : List String) (acc : List Bytes) (reqs : List String) (w w1 w2 : ω)
      (bodies : List Bytes) (e : Error),
      client.serve pre w = some (bodies, w1) → client.fetch u w1 = (Except.error e, w2) →
      HTTPRootCAFetcher.fetchLoop client (pre ++ u :: post) acc reqs w =
        ⟨⟨some (acc ++ bodies.map StdEncoding.Encode), some e⟩, reqs ++ pre ++ [u], w2⟩ := by
  induction pre with
  | nil =>
    intro u post acc reqs w w1 w2 bodies e hs hf
    simp only [HTTPClient.serve, Option.some.injEq, Prod.mk.injEq] at hs
    obtain ⟨hb, hw⟩ := hs
    subst hb hw
    simp [HTTPRootCAFetcher.fetchLoop, hf]
  | cons a pre ih =>
    intro u post acc reqs w w1 w2 bodies e hs hf
    simp only [HTTPClient.serve] at hs
    rcases hfa : client.fetch a w with ⟨r, wa⟩
    rw [hfa] at hs
    cases r with
    | error e1 => simp at hs
    | ok b =>
      simp only at hs
      cases hsr : client.serve pre wa with
      | none => simp [hsr] at hs
      | some q =>
        obtain ⟨bs, wb⟩ := q
        simp only [hsr, Option.some.injEq, Prod.mk.injEq] at hs
        obtain ⟨hb, hw⟩ := hs
        subst hb hw
        rw [List.cons_append]
        simp only [HTTPRootCAFetcher.fetchLoop, hfa]
        rw [ih u post _ _ wa wb w2 bs e hsr hf]
        simp

theorem http_fetchLoop_ok (client : HTTPClient ω) (urls : List String) :
    ∀ (acc : List Bytes) (reqs : List String) (w w1 : ω) (bodies : List Bytes),
      client.serve urls w = some (bodies, w1) →
      HTTPRootCAFetcher.fetchLoop client urls acc reqs w =
        ⟨⟨some (acc ++ bodies.map StdEncoding.Encode), none⟩, reqs ++ urls, w1⟩ := by
  induction urls with
  | nil =>
    intro acc reqs w w1 bodies hs
    simp only [HTTPClient.serve, Option.some.injEq, Prod.mk.injEq] at hs
    obtain ⟨hb, hw⟩ := hs
    subst hb hw
    simp [HTTPRootCAFetcher.fetchLoop]
  | cons a urls ih =>
    intro acc reqs w w1 bodies hs
    simp only [HTTPClient.serve] at hs
    rcases hfa : client.fetch a w with ⟨r, wa⟩
    rw [hfa] at hs
    cases r with
    | error e1 => simp at hs
    | ok b =>
      simp only at hs
      cases hsr : client.serve urls wa with
      | none => simp [hsr] at hs
      | some q =>
        obtain ⟨bs, wb⟩ := q
        simp only [hsr, Option.some.injEq, Prod.mk.injEq] at hs
        obtain ⟨hb, hw⟩ := hs
        subst hb hw
        simp only [HTTPRootCAFetcher.fetchLoop, hfa]
        rw [ih _ _ wa wb bs hsr]
        simp

theorem file_fetchLoop_result (os : FileSystem ω) (paths : List String) :
    ∀ (f : FileRootCAFetcher) (reads : List String) (w : ω),
      (FileRootCAFetcher.fetchLoop os paths f reads w).result.rootCAs =
          (FileRootCAFetcher.fetchLoop os paths f reads w).fetcher.rootCA ∧
        ((FileRootCAFetcher.fetchLoop os paths f reads w).result.err = none →
          (paths ≠ [] ∨ f.rootCA ≠ none) →
          (FileRootCAFetcher.fetchLoop os paths f reads w).fetcher.rootCA ≠ none) := by
  induction paths with
  | nil => intro f reads w; simp [FileRootCAFetcher.fetchLoop]
  | cons a paths ih =>
    intro f reads w
    simp only [FileRootCAFetcher.fetchLoop]
    rcases hfa : os.ReadFile a w with ⟨r, wa⟩
    cases r with
    | error e => simp
    | ok b =>
      simp only
      refine ⟨(ih _ _ _).1, fun hok _ => (ih _ _ _).2 hok (Or.inr ?_)⟩
      cases f.rootCA <;> simp [Slices.append]

theorem file_Fetch_cached (os : FileSystem ω) (f : FileRootCAFetcher) (w : ω)
    (cached : List Bytes) (h : f.rootCA = some cached) :
    FileRootCAFetcher.Fetch os f w = ⟨⟨some cached, none⟩, f, [], w⟩ := by
  simp [FileRootCAFetcher.Fetch, h]

theorem file_Fetch_ok (os : FileSystem ω) (f : FileRootCAFetcher) (w : ω)
    (hp : f.paths ≠ []) (hok : (FileRootCAFetcher.Fetch os f w).result.err = none) :
    ∃ cached, (FileRootCAFetcher.Fetch os f w).fetcher.rootCA = some cached ∧
      (FileRootCAFetcher.Fetch os f w).result = ⟨some cached, none⟩ := by
  cases hc : f.rootCA with
  | some cached =>
    rw [file_Fetch_cached os f w cached hc]
    exact ⟨cached, hc, rfl⟩
  | none =>
    have hF : FileRootCAFetcher.Fetch os f w = FileRootCAFetcher.fetchLoop os f.paths f [] w := by
      simp [FileRootCAFetcher.Fetch, hc]
    rw [hF] at hok ⊢
    obtain ⟨h1, h2⟩ := file_fetchLoop_result os f.paths f [] w
    have h3 := h2 hok (Or.inl hp)
    cases hr : (FileRootCAFetcher.fetchLoop os f.paths f [] w).fetcher.rootCA with
    | none => exact absurd hr h3
    | some cached =>
      refine ⟨cached, rfl, ?_⟩
      rw [hr] at h1
      rcases hres : (FileRootCAFetcher.fetchLoop os f.paths f [] w).result with ⟨a, b⟩
      rw [hres] at h1 hok
      simp only at h1 hok
      rw [h1, hok]

theorem file_runs_cached (os : FileSystem ω) (g : FileRootCAFetcher) (cached : List Bytes)
    (h : g.rootCA = some cached) (ws : List ω) :
    ∀ run ∈ FileRootCAFetcher.runs os g ws,
      run.result = ⟨some cached, none⟩ ∧ run.reads = [] := by
  induction ws with
  | nil => simp [FileRootCAFetcher.runs]
  | cons w ws ih =>
    intro run hrun
    simp only [FileRootCAFetcher.runs, file_Fetch_cached os g w cached h, List.mem_cons] at hrun
    rcases hrun with h1 | h1
    · subst h1; exact ⟨rfl, rfl⟩
    · exact ih run h1

end Fetchers

/-! ## The loop of FetchKeys -/

theorem certOf_some {C K : Type} (x : X509 C K) (e : Bytes) (c : C) (h : x.certOf e = some c) :
    ∃ der, x.Decode e = Except.ok der ∧ x.ParseCertificate der = Except.ok c := by
  unfold X509.certOf at h
  split at h
  · cases h
  · rename_i der hd
    split at h
    · cases h
    · rename_i cert hp
      cases h
      exact ⟨der, hd, hp⟩

section Loop

variable {A K C φ : Type} [DecidableEq C]

theorem body_error (x : X509 C K) (F : RootCAFetcher φ) (p : KeyProvider K φ) (alg : A)
    (i : Nat) (chain : Bytes) (v : LoopVars C φ) (r : FetchKeysRun A K C φ)
    (h : FetchKeys.body x F p alg i chain v = Except.error r) :
    r.provider.trusted = p.trusted ∧ r.verified = none ∧ r.ret ≠ Return.panic ∧
      (r.ret = Return.nil → r.sink = [(alg, p.trusted.pubkey)] ∧ p.trusted.name = chain) ∧
      (r.ret ≠ Return.nil → r.sink = []) := by
  unfold FetchKeys.body at h
  split at h
  · cases h; simp_all
  · split at h
    · cases h; simp
    · split at h
      · cases h; simp
      · split at h
        · cases h
        · split at h
          · cases h; simp
          · cases h
          · cases h

theorem loop_error (x : X509 C K) (F : RootCAFetcher φ) (p : KeyProvider K φ) (alg : A)
    (es : List Bytes) : ∀ (i : Nat) (v : LoopVars C φ) (r : FetchKeysRun A K C φ),
    FetchKeys.loop x F p alg i es v = Except.error r →
    r.provider.trusted = p.trusted ∧ r.verified = none ∧ r.ret ≠ Return.panic ∧
      (r.ret = Return.nil → r.sink = [(alg, p.trusted.pubkey)] ∧ p.trusted.name ∈ es) ∧
      (r.ret ≠ Return.nil → r.sink = []) := by
  induction es with
  | nil => intro i v r h; simp [FetchKeys.loop] at h
  | cons e rest ih =>
    intro i v r h
    simp only [FetchKeys.loop] at h
    split at h
    · rename_i r1 hb
      cases h
      obtain ⟨h1, h2, h3, h4, h5⟩ := body_error x F p alg i e v _ hb
      refine ⟨h1, h2, h3, ?_, h5⟩
      intro hn
      obtain ⟨h6, h7⟩ := h4 hn
      exact ⟨h6, by simp [h7]⟩
    · obtain ⟨h1, h2, h3, h4, h5⟩ := ih _ _ r h
      refine ⟨h1, h2, h3, ?_, h5⟩
      intro hn
      obtain ⟨h6, h7⟩ := h4 hn
      exact ⟨h6, List.mem_cons_of_mem _ h7⟩

theorem mem_addCert (s : List C) (d c : C) :
    c ∈ CertPool.AddCert s d ↔ c ∈ s ∨ c = d := by
  unfold CertPool.AddCert
  split
  · constructor
    · intro h; exact Or.inl h
    · rintro (h | h)
      · exact h
      · subst h; assumption
  · simp

theorem match_eq (F : RootCAFetcher φ) (s : φ) (chain : Bytes) :
    KeyProvider.match_ F s chain =
      (match (F.Fetch s).1.err with
        | some err => (false, some err)
        | none => (decide (chain ∈ (F.Fetch s).1.rootCAs.elems), none),
       (F.Fetch s).2) := by
  unfold KeyProvider.match_
  rcases hF : F.Fetch s with ⟨⟨roots, err⟩, s1⟩
  cases err with
  | none =>
    simp only
    congr 2
    rw [Bool.eq_iff_iff]
    simp [List.any_eq_true]
  | some e => rfl

theorem body_succ_ok (x : X509 C K) (F : RootCAFetcher φ) (p : KeyProvider K φ) (alg : A)
    (i : Nat) (e : Bytes) (v v1 : LoopVars C φ)
    (h : FetchKeys.body x F p alg (i + 1) e v = (Except.ok v1 : Except (FetchKeysRun A K C φ) _)) :
    p.trusted.name ≠ e ∧ (F.Fetch v.fetcher).1.err = none ∧
      v1.fetcher = (F.Fetch v.fetcher).2 ∧ v1.label = v.label ∧ v1.key = v.key ∧
      ∃ c, x.certOf e = some c ∧
        ((e ∈ (F.Fetch v.fetcher).1.rootCAs.elems ∧ v1.isApple = true ∧
            v1.verifyOpts = ⟨CertPool.AddCert v.verifyOpts.Roots c, v.verifyOpts.Intermediates⟩) ∨
         (e ∉ (F.Fetch v.fetcher).1.rootCAs.elems ∧ v1.isApple = v.isApple ∧
            v1.verifyOpts = ⟨v.verifyOpts.Roots, CertPool.AddCert v.verifyOpts.Intermediates c⟩)) := by
  unfold FetchKeys.body at h
  split at h
  · cases h
  · rename_i hne
    split at h
    · cases h
    · rename_i der hd
      split at h
      · cases h
      · rename_i cert hp
        have hc : x.certOf e = some cert := by simp [X509.certOf, hd, hp]
        simp only [match_eq] at h
        cases herr : (F.Fetch v.fetcher).1.err with
        | some err => simp [herr] at h
        | none =>
          simp only [herr] at h
          by_cases hm : e ∈ (F.Fetch v.fetcher).1.rootCAs.elems
          · simp only [hm, decide_True] at h
            cases h
            exact ⟨hne, rfl, rfl, rfl, rfl, cert, hc, Or.inl ⟨hm, rfl, rfl⟩⟩
          · simp only [hm, decide_False] at h
            cases h
            exact ⟨hne, rfl, rfl, rfl, rfl, cert, hc, Or.inr ⟨hm, rfl, rfl⟩⟩

theorem body_zero_ok (x : X509 C K) (F : RootCAFetcher φ) (p : KeyProvider K φ) (alg : A)
    (e : Bytes) (v v1 : LoopVars C φ)
    (h : FetchKeys.body x F p alg 0 e v = (Except.ok v1 : Except (FetchKeysRun A K C φ) _)) :
    p.trusted.name ≠ e ∧ ∃ c, x.certOf e = some c ∧ v1 = { v with label := e, key := some c } := by
  unfold FetchKeys.body at h
  split at h
  · cases h
  · rename_i hne
    split at h
    · cases h
    · rename_i der hd
      split at h
      · cases h
      · rename_i cert hp
        have hc : x.certOf e = some cert := by simp [X509.certOf, hd, hp]
        cases h
        exact ⟨hne, cert, hc, rfl⟩

theorem body_zero_run (x : X509 C K) (F : RootCAFetcher φ) (p : KeyProvider K φ) (alg : A)
    (e : Bytes) (v : LoopVars C φ) (c : C) (hne : p.trusted.name ≠ e)
    (hc : x.certOf e = some c) :
    FetchKeys.body x F p alg 0 e v =
      (Except.ok { v with label := e, key := some c } : Except (FetchKeysRun A K C φ) _) := by
  obtain ⟨der, hd, hp⟩ := certOf_some x e c hc
  simp [FetchKeys.body, hne, hd, hp]

theorem body_succ_run (x : X509 C K) (F : RootCAFetcher φ) (p : KeyProvider K φ) (alg : A)
    (i : Nat) (e : Bytes) (v : LoopVars C φ) (c : C) (hne : p.trusted.name ≠ e)
    (hc : x.certOf e = some c) (hf : (F.Fetch v.fetcher).1.err = none) :
    ∃ v1, FetchKeys.body x F p alg (i + 1) e v =
      (Except.ok v1 : Except (FetchKeysRun A K C φ) _) := by
  obtain ⟨der, hd, hp⟩ := certOf_some x e c hc
  by_cases hm : e ∈ (F.Fetch v.fetcher).1.rootCAs.elems
  · simp [FetchKeys.body, hne, hd, hp, match_eq, hf, hm]
  · simp [FetchKeys.body, hne, hd, hp, match_eq, hf, hm]

theorem body_succ_fetch_error (x : X509 C K) (F : RootCAFetcher φ) (p : KeyProvider K φ)
    (alg : A) (i : Nat) (e : Bytes) (v : LoopVars C φ) (c : C) (err : Error)
    (hne : p.trusted.name ≠ e) (hc : x.certOf e = some c)
    (hf : (F.Fetch v.fetcher).1.err = some err) :
    FetchKeys.body x F p alg (i + 1) e v =
      (Except.error ⟨Return.err err, ⟨p.trusted, (F.Fetch v.fetcher).2⟩, [], none⟩ :
        Except (FetchKeysRun A K C φ) _) := by
  obtain ⟨der, hd, hp⟩ := certOf_some x e c hc
  simp [FetchKeys.body, hne, hd, hp, match_eq, hf]

theorem loop_succ_ok (x : X509 C K) (F : RootCAFetcher φ) (p : KeyProvider K φ) (alg : A)
    (es : List Bytes) : ∀ (i : Nat) (v v1 : LoopVars C φ),
    FetchKeys.loop x F p alg (i + 1) es v = (Except.ok v1 : Except (FetchKeysRun A K C φ) _) →
    (∀ e ∈ es, p.trusted.name ≠ e ∧ ∃ c, x.certOf e = some c) ∧
    (∀ r ∈ F.results v.fetcher es.length, r.err = none) ∧
    v1.fetcher = F.after v.fetcher es.length ∧ v1.label = v.label ∧ v1.key = v.key ∧
    (v1.isApple = true ↔ v.isApple = true ∨
      ∃ pr ∈ es.zip (F.results v.fetcher es.length), pr.1 ∈ pr.2.rootCAs.elems) ∧
    (∀ c, c ∈ v1.verifyOpts.Roots ↔ c ∈ v.verifyOpts.Roots ∨
      ∃ pr ∈ es.zip (F.results v.fetcher es.length),
        pr.1 ∈ pr.2.rootCAs.elems ∧ x.certOf pr.1 = some c) ∧
    (∀ c, c ∈ v1.verifyOpts.Intermediates ↔ c ∈ v.verifyOpts.Intermediates ∨
      ∃ pr ∈ es.zip (F.results v.fetcher es.length),
        pr.1 ∉ pr.2.rootCAs.elems ∧ x.certOf pr.1 = some c) := by
  induction es with
  | nil =>
    intro i v v1 h
    simp only [FetchKeys.loop] at h
    cases h
    simp [RootCAFetcher.results, RootCAFetcher.after]
  | cons e rest ih =>
    intro i v v1 h
    simp only [FetchKeys.loop] at h
    split at h
    · cases h
    · rename_i v2 hb
      obtain ⟨hne, hf, hs, hl, hk, c0, hc0, hcase⟩ := body_succ_ok x F p alg i e v v2 hb
      obtain ⟨g1, g2, g3, g4, g5, g6, g7, g8⟩ := ih (i + 1) v2 v1 h
      rw [hs] at g2 g3 g6 g7 g8
      refine ⟨?_, ?_, ?_, ?_, ?_, ?_, ?_, ?_⟩
      · intro e1 he1
        rcases List.mem_cons.mp he1 with h1 | h1
        · subst h1; exact ⟨hne, c0, hc0⟩
        · exact g1 e1 h1
      · intro r hr
        simp only [List.length_cons, RootCAFetcher.results, List.mem_cons] at hr
        rcases hr with h1 | h1
        · rw [h1]; exact hf
        · exact g2 r h1
      · simpa [RootCAFetcher.after] using g3
      · rw [g4, hl]
      · rw [g5, hk]
      · rw [g6]
        simp only [List.length_cons, RootCAFetcher.results, List.zip_cons_cons, List.mem_cons,
          exists_eq_or_imp]
        rcases hcase with ⟨hm, ha, _⟩ | ⟨hm, ha, _⟩
        · simp [hm, ha]
        · simp [hm, ha]
      · intro c
        rw [g7]
        simp only [List.length_cons, RootCAFetcher.results, List.zip_cons_cons, List.mem_cons,
          exists_eq_or_imp]
        rcases hcase with ⟨hm, _, ho⟩ | ⟨hm, _, ho⟩
        · simp only [ho, mem_addCert, hm, hc0, true_and, Option.some.injEq]
          constructor
          · rintro ((h1 | h1) | h1)
            · exact Or.inl h1
            · exact Or.inr (Or.inl h1.symm)
            · exact Or.inr (Or.inr h1)
          · rintro (h1 | h1 | h1)
            · exact Or.inl (Or.inl h1)
            · exact Or.inl (Or.inr h1.symm)
            · exact Or.inr h1
        · simp [ho, hm]
      · intro c
        rw [g8]
        simp only [List.length_cons, RootCAFetcher.results, List.zip_cons_cons, List.mem_cons,
          exists_eq_or_imp]
        rcases hcase with ⟨hm, _, ho⟩ | ⟨hm, _, ho⟩
        · simp [ho, hm]
        · simp only [ho, mem_addCert, hm, hc0, not_false_eq_true, true_and, Option.some.injEq]
          constructor
          · rintro ((h1 | h1) | h1)
            · exact Or.inl h1
            · exact Or.inr (Or.inl h1.symm)
            · exact Or.inr (Or.inr h1)
          · rintro (h1 | h1 | h1)
            · exact Or.inl (Or.inl h1)
            · exact Or.inl (Or.inr h1.symm)
            · exact Or.inr h1

theorem loop_succ_run (x : X509 C K) (F : RootCAFetcher φ) (p : KeyProvider K φ) (alg : A)
    (es : List Bytes) : ∀ (i : Nat) (v : LoopVars C φ),
    (∀ e ∈ es, p.trusted.name ≠ e ∧ ∃ c, x.certOf e = some c) →
    (∀ r ∈ F.results v.fetcher es.length, r.err = none) →
    ∃ v1, FetchKeys.loop x F p alg (i + 1) es v =
      (Except.ok v1 : Except (FetchKeysRun A K C φ) _) := by
  induction es with
  | nil => intro i v _ _; exact ⟨v, rfl⟩
  | cons e rest ih =>
    intro i v he hr
    obtain ⟨hne, c, hc⟩ := he e (List.mem_cons_self _ _)
    have hf : (F.Fetch v.fetcher).1.err = none :=
      hr _ (by simp [RootCAFetcher.results])
    obtain ⟨v2, hb⟩ := body_succ_run x F p alg i e v c hne hc hf
    have hs := (body_succ_ok x F p alg i e v v2 hb).2.2.1
    obtain ⟨v1, hl⟩ := ih (i + 1) v2 (fun e1 h1 => he e1 (List.mem_cons_of_mem _ h1))
      (fun r h1 => hr r (by
        rw [hs] at h1
        simp only [List.length_cons, RootCAFetcher.results, List.mem_cons]
        exact Or.inr h1))
    exact ⟨v1, by simp only [FetchKeys.loop, hb, hl]⟩

theorem loop_zero_cons (x : X509 C K) (F : RootCAFetcher φ) (p : KeyProvider K φ) (alg : A)
    (leaf : Bytes) (rest : List Bytes) (v : LoopVars C φ) (c : C)
    (hne : p.trusted.name ≠ leaf) (hc : x.certOf leaf = some c) :
    (FetchKeys.loop x F p alg 0 (leaf :: rest) v : Except (FetchKeysRun A K C φ) _) =
      FetchKeys.loop x F p alg 1 rest { v with label := leaf, key := some c } := by
  simp only [FetchKeys.loop, body_zero_run x F p alg leaf v c hne hc]

theorem loop_zero_ok (x : X509 C K) (F : RootCAFetcher φ) (p : KeyProvider K φ) (alg : A)
    (chain : List Bytes) (v v1 : LoopVars C φ)
    (h : FetchKeys.loop x F p alg 0 chain v = (Except.ok v1 : Except (FetchKeysRun A K C φ) _)) :
    (chain = [] ∧ v1 = v) ∨
    ∃ leaf rest c, chain = leaf :: rest ∧ p.trusted.name ≠ leaf ∧ x.certOf leaf = some c ∧
      FetchKeys.loop x F p alg 1 rest { v with label := leaf, key := some c } =
        (Except.ok v1 : Except (FetchKeysRun A K C φ) _) := by
  cases chain with
  | nil =>
    simp only [FetchKeys.loop] at h
    cases h
    exact Or.inl ⟨rfl, rfl⟩
  | cons leaf rest =>
    right
    simp only [FetchKeys.loop] at h
    split at h
    · cases h
    · rename_i v2 hb
      obtain ⟨hne, c, hc, hv2⟩ := body_zero_ok x F p alg leaf v v2 hb
      subst hv2
      exact ⟨leaf, rest, c, rfl, hne, hc, h⟩

theorem FetchKeys_verified (x : X509 C K) (F : RootCAFetcher φ) (p : KeyProvider K φ)
    (sig : Signature A) (key : C) (opts : VerifyOptions C)
    (h : (KeyProvider.FetchKeys x F p sig).verified = some (key, opts)) :
    ∃ v, FetchKeys.loop x F p sig.Algorithm 0 sig.X509CertChain
        ⟨false, [], none, ⟨[], []⟩, p.fetcher⟩ =
          (Except.ok v : Except (FetchKeysRun A K C φ) _) ∧
      v.isApple = true ∧ v.key = some key ∧ v.verifyOpts = opts := by
  unfold KeyProvider.FetchKeys at h
  split at h
  · rename_i r hl
    rw [(loop_error x F p _ _ _ _ r hl).2.1] at h
    cases h
  · rename_i v hl
    refine ⟨v, hl, ?_⟩
    split at h
    · cases h
    · rename_i ha
      split at h
      · cases h
      · rename_i k hk
        have hv : some (k, v.verifyOpts) = some (key, opts) := by
          split at h <;> exact h
        cases hv
        exact ⟨by simpa using ha, hk, rfl⟩

theorem body_zero_fail (x : X509 C K) (F : RootCAFetcher φ) (p : KeyProvider K φ) (alg : A)
    (e : Bytes) (v : LoopVars C φ) (hne : p.trusted.name ≠ e) (hc : x.certOf e = none) :
    ∃ err, FetchKeys.body x F p alg 0 e v =
      (Except.error ⟨Return.err err, ⟨p.trusted, v.fetcher⟩, [], none⟩ :
        Except (FetchKeysRun A K C φ) _) := by
  unfold X509.certOf at hc
  unfold FetchKeys.body
  simp only [hne, if_false]
  split at hc
  · rename_i err hd
    exact ⟨err, by simp [hd]⟩
  · rename_i der hd
    split at hc
    · rename_i err hp
      exact ⟨err, by simp [hd, hp]⟩
    · cases hc

theorem FetchKeys_hit_first (x : X509 C K) (F : RootCAFetcher φ) (p : KeyProvider K φ)
    (sig : Signature A) (e0 : Bytes) (rest : List Bytes)
    (hchain : sig.X509CertChain = e0 :: rest) (h0 : p.trusted.name = e0) :
    KeyProvider.FetchKeys x F p sig =
      ⟨Return.nil, ⟨p.trusted, p.fetcher⟩, [(sig.Algorithm, p.trusted.pubkey)], none⟩ := by
  simp [KeyProvider.FetchKeys, hchain, FetchKeys.loop, FetchKeys.body, h0]

theorem FetchKeys_hit_second (x : X509 C K) (F : RootCAFetcher φ) (p : KeyProvider K φ)
    (sig : Signature A) (e0 e1 : Bytes) (rest : List Bytes) (c : C)
    (hchain : sig.X509CertChain = e0 :: e1 :: rest) (h0 : p.trusted.name ≠ e0)
    (hc : x.certOf e0 = some c) (h1 : p.trusted.name = e1) :
    KeyProvider.FetchKeys x F p sig =
      ⟨Return.nil, ⟨p.trusted, p.fetcher⟩, [(sig.Algorithm, p.trusted.pubkey)], none⟩ := by
  unfold KeyProvider.FetchKeys
  rw [hchain, loop_zero_cons x F p _ e0 _ _ c h0 hc]
  simp [FetchKeys.loop, FetchKeys.body, h1]

theorem FetchKeys_nil_validated (x : X509 C K) (F : RootCAFetcher φ) (p : KeyProvider K φ)
    (sig : Signature A) (hok : (KeyProvider.FetchKeys x F p sig).ret = Return.nil)
    (hmiss : p.trusted.name ∉ sig.X509CertChain) :
    ∃ (leaf : Bytes) (rest : List Bytes) (k : C), sig.X509CertChain = leaf :: rest ∧
      (KeyProvider.FetchKeys x F p sig).provider.trusted = ⟨leaf, x.PublicKey k⟩ ∧
      (KeyProvider.FetchKeys x F p sig).sink = [(sig.Algorithm, x.PublicKey k)] := by
  unfold KeyProvider.FetchKeys at hok ⊢
  split
  · rename_i r hl
    rw [hl] at hok
    exact absurd ((loop_error x F p _ _ _ _ r hl).2.2.2.1 hok).2 hmiss
  · rename_i v hl
    rw [hl] at hok
    simp only at hok
    rcases loop_zero_ok x F p _ _ _ v hl with ⟨_, hv⟩ | ⟨leaf, rest, c, hchain, _, _, hl1⟩
    · subst hv; simp at hok
    · obtain ⟨_, _, _, g4, _⟩ := loop_succ_ok x F p _ rest 0 _ v hl1
      simp only at g4
      split at hok
      · cases hok
      · rename_i ha
        split at hok
        · cases hok
        · rename_i k hk
          split at hok
          · cases hok
          · rename_i hv
            refine ⟨leaf, rest, k, hchain, ?_, ?_⟩
            · simp [ha, hk, hv, g4]
            · simp [ha, hk, hv]

end Loop

/-! ## Claims -/

/-- C1: whenever `FetchKeys` returns an error, the trusted cache (name and pubkey) after
the call equals the trusted cache before the call. -/
theorem C1_error_leaves_cache {A K C φ : Type} [DecidableEq C] (x : X509 C K)
    (F : RootCAFetcher φ) (p : KeyProvider K φ) (sig : Signature A) (e : Error)
    (h : (KeyProvider.FetchKeys x F p sig).ret = Return.err e) :
    (KeyProvider.FetchKeys x F p sig).provider.trusted = p.trusted := by
  unfold KeyProvider.FetchKeys at h ⊢
  split
  · rename_i r hl
    exact (loop_error x F p _ _ _ _ r hl).1
  · rename_i v hl
    simp only [hl] at h
    split
    · rfl
    · split
      · rfl
      · split
        · rfl
        · rename_i hk _ hv
          simp [hk, hv] at h
          split at h <;> simp_all

/-- C9: on a chain of length at least 2 whose first two entries differ from the cached
name and both decode and parse, if the source's `Fetch` returns an error `e` (with any
accompanying result), `FetchKeys` returns exactly `e`, makes no `Verify` call, delivers
no key, and leaves the cache as it was. -/
theorem C9_fetch_error_surfaces {A K C φ : Type} [DecidableEq C] (x : X509 C K)
    (F : RootCAFetcher φ) (p : KeyProvider K φ) (sig : Signature A)
    (e0 e1 : Bytes) (rest : List Bytes) (e : Error)
    (hchain : sig.X509CertChain = e0 :: e1 :: rest)
    (hne0 : p.trusted.name ≠ e0) (hne1 : p.trusted.name ≠ e1)
    (hc0 : (x.certOf e0).isSome = true) (hc1 : (x.certOf e1).isSome = true)
    (hf : (F.Fetch p.fetcher).1.err = some e) :
    (KeyProvider.FetchKeys x F p sig).ret = Return.err e ∧
      (KeyProvider.FetchKeys x F p sig).verified = none ∧
      (KeyProvider.FetchKeys x F p sig).sink = [] ∧
      (KeyProvider.FetchKeys x F p sig).provider.trusted = p.trusted := by
  obtain ⟨c0, hc0⟩ := Option.isSome_iff_exists.mp hc0
  obtain ⟨c1, hc1⟩ := Option.isSome_iff_exists.mp hc1
  unfold KeyProvider.FetchKeys
  rw [hchain, loop_zero_cons x F p _ e0 _ _ c0 hne0 hc0]
  simp only [FetchKeys.loop]
  rw [body_succ_fetch_error x F p _ 0 e1 _ c1 e hne1 hc1 hf]
  simp

/-- C10 (amended): in every `FetchKeys` run that reaches path validation, the
certificate validated is the certificate of the index-0 entry; every entry at index 1 and
above parsed and its `Fetch` succeeded; the roots pool holds exactly the certificates
of the entries at index 1 and above that equal a root returned by the `Fetch` made for
them, the intermediates pool exactly the certificates of the other entries at index 1
and above; and the roots pool is non-empty. -/
theorem C10_pools_of_validation {A K C φ : Type} [DecidableEq C] (x : X509 C K)
    (F : RootCAFetcher φ) (p : KeyProvider K φ) (sig : Signature A) (key : C)
    (opts : VerifyOptions C)
    (h : (KeyProvider.FetchKeys x F p sig).verified = some (key, opts)) :
    sig.X509CertChain.head?.bind x.certOf = some key ∧
      (∀ pr ∈ ancestors F p.fetcher sig.X509CertChain,
        (x.certOf pr.1).isSome = true ∧ pr.2.err = none) ∧
      (∀ c, c ∈ opts.Roots ↔ ∃ pr ∈ ancestors F p.fetcher sig.X509CertChain,
        pr.1 ∈ pr.2.rootCAs.elems ∧ x.certOf pr.1 = some c) ∧
      (∀ c, c ∈ opts.Intermediates ↔ ∃ pr ∈ ancestors F p.fetcher sig.X509CertChain,
        pr.1 ∉ pr.2.rootCAs.elems ∧ x.certOf pr.1 = some c) ∧
      opts.Roots ≠ [] := by
  obtain ⟨v, hl, ha, hk, ho⟩ := FetchKeys_verified x F p sig key opts h
  rcases loop_zero_ok x F p _ _ _ v hl with ⟨_, hv⟩ | ⟨leaf, rest, c, hchain, _, hc, hl1⟩
  · subst hv; cases ha
  · obtain ⟨g1, g2, _, _, g5, g6, g7, g8⟩ := loop_succ_ok x F p _ rest 0 _ v hl1
    simp only [List.not_mem_nil, false_or, Bool.false_eq_true] at g5 g6 g7 g8
    subst ho
    have hkc : c = key := by
      rw [hk] at g5
      exact (Option.some.inj g5).symm
    subst hkc
    have hanc : ancestors F p.fetcher sig.X509CertChain =
        rest.zip (F.results p.fetcher rest.length) := by
      simp [ancestors, hchain]
    rw [hanc]
    refine ⟨by simp [hchain, hc], ?_, g7, g8, ?_⟩
    · intro pr hpr
      obtain ⟨_, c1, hc1⟩ := g1 pr.1 (List.of_mem_zip hpr).1
      exact ⟨by simp [hc1], g2 pr.2 (List.of_mem_zip hpr).2⟩
    · obtain ⟨pr, hpr, hm⟩ := g6.mp ha
      obtain ⟨_, c1, hc1⟩ := g1 pr.1 (List.of_mem_zip hpr).1
      have : c1 ∈ v.verifyOpts.Roots := (g7 c1).mpr ⟨pr, hpr, hm, hc1⟩
      exact List.ne_nil_of_mem this

/-- C2: on a chain in which no entry equals the cached name, every entry decodes and
parses, every `Fetch` succeeds, some entry at index 1 or above equals a root returned by
the `Fetch` made for it (so the chain has length at least 2), and path validation of the index-0
certificate against the pools of those entries succeeds, `FetchKeys` returns no error,
delivers exactly the index-0 certificate's public key under the signature's algorithm,
and leaves the cache holding the index-0 entry and that public key. -/
theorem C2_full_validation_succeeds {A K C φ : Type} [DecidableEq C] (x : X509 C K)
    (F : RootCAFetcher φ) (p : KeyProvider K φ) (sig : Signature A)
    (leaf : Bytes) (rest : List Bytes) (cert : C)
    (hchain : sig.X509CertChain = leaf :: rest)
    (hcache : ∀ e ∈ sig.X509CertChain, p.trusted.name ≠ e)
    (hleaf : x.certOf leaf = some cert)
    (hparse : ∀ e ∈ sig.X509CertChain, (x.certOf e).isSome = true)
    (hfetch : ∀ r ∈ F.results p.fetcher rest.length, r.err = none)
    (hroot : ∃ pr ∈ ancestors F p.fetcher sig.X509CertChain, pr.1 ∈ pr.2.rootCAs.elems)
    (hverify : ∀ opts : VerifyOptions C,
      (∀ c, c ∈ opts.Roots ↔ ∃ pr ∈ ancestors F p.fetcher sig.X509CertChain,
        pr.1 ∈ pr.2.rootCAs.elems ∧ x.certOf pr.1 = some c) →
      (∀ c, c ∈ opts.Intermediates ↔ ∃ pr ∈ ancestors F p.fetcher sig.X509CertChain,
        pr.1 ∉ pr.2.rootCAs.elems ∧ x.certOf pr.1 = some c) →
      x.Verify cert opts = none) :
    (KeyProvider.FetchKeys x F p sig).ret = Return.nil ∧
      (KeyProvider.FetchKeys x F p sig).sink = [(sig.Algorithm, x.PublicKey cert)] ∧
      (KeyProvider.FetchKeys x F p sig).provider.trusted = ⟨leaf, x.PublicKey cert⟩ := by
  have hanc : ancestors F p.fetcher sig.X509CertChain =
      rest.zip (F.results p.fetcher rest.length) := by
    simp [ancestors, hchain]
  rw [hanc] at hroot hverify
  rw [hchain] at hcache hparse
  have hrest : ∀ e ∈ rest, p.trusted.name ≠ e ∧ ∃ c, x.certOf e = some c := fun e he =>
    ⟨hcache e (List.mem_cons_of_mem _ he),
      Option.isSome_iff_exists.mp (hparse e (List.mem_cons_of_mem _ he))⟩
  obtain ⟨v, hl⟩ := loop_succ_run (A := A) x F p sig.Algorithm rest 0
    ⟨false, leaf, some cert, ⟨[], []⟩, p.fetcher⟩ hrest hfetch
  obtain ⟨_, _, _, g4, g5, g6, g7, g8⟩ := loop_succ_ok x F p _ rest 0 _ v hl
  simp only [List.not_mem_nil, false_or, Bool.false_eq_true] at g4 g5 g6 g7 g8
  have ha : v.isApple = true := g6.mpr hroot
  have hv : x.Verify cert v.verifyOpts = none := hverify v.verifyOpts g7 g8
  unfold KeyProvider.FetchKeys
  rw [hchain, loop_zero_cons x F p _ leaf _ _ cert (hcache leaf (List.mem_cons_self _ _)) hleaf,
    hl]
  simp [ha, g5, hv, g4]

/-- C3 (amended): when no entry of the chain equals the cached name, every entry decodes
and parses, every `Fetch` succeeds and no entry at index 1 or above equals a root returned
by the `Fetch` made for it, `FetchKeys` fails with the error "certificate is not from
Apple", makes no `Verify` call and delivers no key; chains of length 0 and 1 included. -/
theorem C3_no_root_no_cache_hit {A K C φ : Type} [DecidableEq C] (x : X509 C K)
    (F : RootCAFetcher φ) (p : KeyProvider K φ) (sig : Signature A)
    (hcache : ∀ e ∈ sig.X509CertChain, p.trusted.name ≠ e)
    (hparse : ∀ e ∈ sig.X509CertChain, (x.certOf e).isSome = true)
    (hfetch : ∀ r ∈ F.results p.fetcher sig.X509CertChain.tail.length, r.err = none)
    (hnoroot : ∀ pr ∈ ancestors F p.fetcher sig.X509CertChain, pr.1 ∉ pr.2.rootCAs.elems) :
    (KeyProvider.FetchKeys x F p sig).ret = Return.err errNotFromApple ∧
      (KeyProvider.FetchKeys x F p sig).verified = none ∧
      (KeyProvider.FetchKeys x F p sig).sink = [] := by
  cases hchain : sig.X509CertChain with
  | nil => simp [KeyProvider.FetchKeys, hchain, FetchKeys.loop]
  | cons leaf rest =>
    rw [hchain] at hcache hparse hfetch
    have hanc : ancestors F p.fetcher sig.X509CertChain =
        rest.zip (F.results p.fetcher rest.length) := by
      simp [ancestors, hchain]
    rw [hanc] at hnoroot
    obtain ⟨cert, hleaf⟩ := Option.isSome_iff_exists.mp (hparse leaf (List.mem_cons_self _ _))
    have hrest : ∀ e ∈ rest, p.trusted.name ≠ e ∧ ∃ c, x.certOf e = some c := fun e he =>
      ⟨hcache e (List.mem_cons_of_mem _ he),
        Option.isSome_iff_exists.mp (hparse e (List.mem_cons_of_mem _ he))⟩
    obtain ⟨v, hl⟩ := loop_succ_run (A := A) x F p sig.Algorithm rest 0
      ⟨false, leaf, some cert, ⟨[], []⟩, p.fetcher⟩ hrest hfetch
    obtain ⟨_, _, _, _, _, g6, _, _⟩ := loop_succ_ok x F p _ rest 0 _ v hl
    simp only [Bool.false_eq_true, false_or] at g6
    have ha : v.isApple = false := by
      cases hv : v.isApple with
      | false => rfl
      | true =>
        obtain ⟨pr, hpr, hm⟩ := g6.mp hv
        exact absurd hm (hnoroot pr hpr)
    unfold KeyProvider.FetchKeys
    rw [hchain, loop_zero_cons x F p _ leaf _ _ cert (hcache leaf (List.mem_cons_self _ _)) hleaf,
      hl]
    simp [ha]

/-- C7: for a file-backed source with at least one configured path (as every source
built by `NewFileRootCAFetcher` has), once a `Fetch` call has returned a result with no
error, every later `Fetch` call returns the same result with no error and reads no file,
whatever state the filesystem is in at that time. -/
theorem C7_file_fetch_is_cached {ω : Type} (os : FileSystem ω) (f : FileRootCAFetcher)
    (w : ω) (ws : List ω) (hp : f.paths ≠ [])
    (hok : (FileRootCAFetcher.Fetch os f w).result.err = none) :
    ∀ run ∈ FileRootCAFetcher.runs os (FileRootCAFetcher.Fetch os f w).fetcher ws,
      run.result = (FileRootCAFetcher.Fetch os f w).result ∧ run.result.err = none ∧
        run.reads = [] := by
  obtain ⟨cached, hc, hr⟩ := file_Fetch_ok os f w hp hok
  intro run hrun
  obtain ⟨h1, h2⟩ := file_runs_cached os _ cached hc ws run hrun
  rw [hr, h1]
  exact ⟨rfl, rfl, h2⟩

/-- C8: `HTTPRootCAFetcher.Fetch` processes its URLs in order. If the fetches of the URLs
before `u` succeed with `bodies` and the fetch of `u` fails with `e`, it returns `e` with
exactly the base64 encodings of `bodies` in URL order and fetches no URL after `u`; if
every fetch succeeds with `bodies` it returns their encodings in URL order and no
error. -/
theorem C8_http_fetch_in_order {ω : Type} (client : HTTPClient ω) (f : HTTPRootCAFetcher)
    (w : ω) :
    (∀ (pre : List String) (u : String) (post : List String) (bodies : List Bytes)
      (w1 w2 : ω) (e : Error),
      f.urls = pre ++ u :: post → client.serve pre w = some (bodies, w1) →
      client.fetch u w1 = (Except.error e, w2) →
      HTTPRootCAFetcher.Fetch client f w =
        ⟨⟨some (bodies.map StdEncoding.Encode), some e⟩, pre ++ [u], w2⟩) ∧
    (∀ (bodies : List Bytes) (w1 : ω),
      client.serve f.urls w = some (bodies, w1) →
      HTTPRootCAFetcher.Fetch client f w =
        ⟨⟨some (bodies.map StdEncoding.Encode), none⟩, f.urls, w1⟩) := by
  constructor
  · intro pre u post bodies w1 w2 e hu hs hf
    unfold HTTPRootCAFetcher.Fetch
    rw [hu, http_fetchLoop_error client pre u post [] [] w w1 w2 bodies e hs hf]
    simp
  · intro bodies w1 hs
    unfold HTTPRootCAFetcher.Fetch
    rw [http_fetchLoop_ok client f.urls [] [] w w1 bodies hs]
    simp

/-- C4 (amended): if a `FetchKeys` call on a chain succeeds, and the name cached before
that call either does not occur in the chain or occurs at index 0 or 1, then a call that
immediately follows on the same chain, with the cache the first call left, succeeds and
delivers the same key whatever the root source does during the second run (decoding and
parsing being the same functions in both runs). -/
theorem C4_repeat_ignores_source {A K C φ ψ : Type} [DecidableEq C] (x x2 : X509 C K)
    (F : RootCAFetcher φ) (G : RootCAFetcher ψ) (p : KeyProvider K φ) (s : ψ)
    (sig : Signature A)
    (hd : x2.Decode = x.Decode) (hp : x2.ParseCertificate = x.ParseCertificate)
    (hok : (KeyProvider.FetchKeys x F p sig).ret = Return.nil)
    (hidx : sig.X509CertChain.head? = some p.trusted.name ∨
      sig.X509CertChain.tail.head? = some p.trusted.name ∨
      p.trusted.name ∉ sig.X509CertChain) :
    ∃ k, (KeyProvider.FetchKeys x F p sig).sink = [(sig.Algorithm, k)] ∧
      (KeyProvider.FetchKeys x2 G ⟨(KeyProvider.FetchKeys x F p sig).provider.trusted, s⟩
        sig).ret = Return.nil ∧
      (KeyProvider.FetchKeys x2 G ⟨(KeyProvider.FetchKeys x F p sig).provider.trusted, s⟩
        sig).sink = [(sig.Algorithm, k)] := by
  have hcert : ∀ e, x2.certOf e = x.certOf e := by
    intro e; simp [X509.certOf, hd, hp]
  by_cases hmiss : p.trusted.name ∈ sig.X509CertChain
  · have hidx2 : sig.X509CertChain.head? = some p.trusted.name ∨
        sig.X509CertChain.tail.head? = some p.trusted.name := by
      rcases hidx with h | h | h
      · exact Or.inl h
      · exact Or.inr h
      · exact absurd hmiss h
    cases hchain : sig.X509CertChain with
    | nil => rw [hchain] at hmiss; simp at hmiss
    | cons e0 rest =>
      by_cases h0 : p.trusted.name = e0
      · have h1 := FetchKeys_hit_first x F p sig e0 rest hchain h0
        refine ⟨p.trusted.pubkey, by rw [h1], ?_⟩
        rw [h1]
        rw [FetchKeys_hit_first x2 G ⟨p.trusted, s⟩ sig e0 rest hchain h0]
        exact ⟨rfl, rfl⟩
      · rw [hchain] at hidx2
        rcases hidx2 with h | h
        · simp only [List.head?_cons, Option.some.injEq] at h
          exact absurd h.symm h0
        · cases rest with
          | nil => simp at h
          | cons e1 rest1 =>
            simp only [List.tail_cons, List.head?_cons, Option.some.injEq] at h
            cases hc : x.certOf e0 with
            | none =>
              obtain ⟨err, hb⟩ := body_zero_fail (A := A) x F p sig.Algorithm e0
                ⟨false, [], none, ⟨[], []⟩, p.fetcher⟩ h0 hc
              simp [KeyProvider.FetchKeys, hchain, FetchKeys.loop, hb] at hok
            | some c =>
              have h1 := FetchKeys_hit_second x F p sig e0 e1 rest1 c hchain h0 hc h.symm
              refine ⟨p.trusted.pubkey, by rw [h1], ?_⟩
              rw [h1]
              rw [FetchKeys_hit_second x2 G ⟨p.trusted, s⟩ sig e0 e1 rest1 c hchain h0
                ((hcert e0).trans hc) h.symm]
              exact ⟨rfl, rfl⟩
  · obtain ⟨leaf, rest, k, hchain, ht, hs⟩ := FetchKeys_nil_validated x F p sig hok hmiss
    refine ⟨x.PublicKey k, hs, ?_⟩
    rw [ht, FetchKeys_hit_first x2 G ⟨⟨leaf, x.PublicKey k⟩, s⟩ sig leaf rest hchain rfl]
    exact ⟨rfl, rfl⟩

/-- C5 (evaluation at the failing input): on a provider fresh from `NewKeyProvider`, a
chain whose index-0 entry is the empty byte string is served by the cache shortcut: the
call returns nil and delivers the nil key, no certificate is parsed and nothing is
validated. -/
theorem C5_fresh_provider_serves_empty_entry {A K C φ : Type} [DecidableEq C]
    (x : X509 C K) (F : RootCAFetcher φ) (s : φ) (alg : A) (rest : List Bytes) :
    (KeyProvider.FetchKeys x F (NewKeyProvider s : KeyProvider K φ) ⟨alg, [] :: rest⟩).ret =
        Return.nil ∧
      (KeyProvider.FetchKeys x F (NewKeyProvider s : KeyProvider K φ) ⟨alg, [] :: rest⟩).sink =
        [(alg, none)] ∧
      (KeyProvider.FetchKeys x F (NewKeyProvider s : KeyProvider K φ)
        ⟨alg, [] :: rest⟩).verified = none := by
  simp [KeyProvider.FetchKeys, FetchKeys.loop, FetchKeys.body, NewKeyProvider]

/-- C6 (evaluation at the failing input): with paths `a.cer`, `b.cer`, a first `Fetch`
that reads `a.cer` and fails on `b.cer` leaves the one encoded entry in the cache; the next
`Fetch`, with both files readable, reads no file and returns that single entry with no
error instead of one entry per path. -/
theorem C6_failed_fetch_keeps_entries :
    (FileRootCAFetcher.Fetch sampleFS (NewFileRootCAFetcher "a.cer" ["b.cer"]) true).result =
        ⟨some [StdEncoding.Encode [1, 2, 3]], some (Error.external 4)⟩ ∧
      (FileRootCAFetcher.Fetch sampleFS (NewFileRootCAFetcher "a.cer" ["b.cer"]) true).reads =
        ["a.cer", "b.cer"] ∧
      (FileRootCAFetcher.Fetch sampleFS (NewFileRootCAFetcher "a.cer" ["b.cer"])
        true).fetcher.rootCA = some [StdEncoding.Encode [1, 2, 3]] ∧
      (FileRootCAFetcher.Fetch sampleFS
        (FileRootCAFetcher.Fetch sampleFS (NewFileRootCAFetcher "a.cer" ["b.cer"]) true).fetcher
        false).result = ⟨some [StdEncoding.Encode [1, 2, 3]], none⟩ ∧
      (FileRootCAFetcher.Fetch sampleFS
        (FileRootCAFetcher.Fetch sampleFS (NewFileRootCAFetcher "a.cer" ["b.cer"]) true).fetcher
        false).reads = [] ∧
      (FileRootCAFetcher.Fetch sampleFS (NewFileRootCAFetcher "a.cer" ["b.cer"]) false).result =
        ⟨some [StdEncoding.Encode [1, 2, 3], StdEncoding.Encode [4, 5, 6]], none⟩ := by
  decide

/-! ## Concrete runs -/

/-- RFC 4648 test vectors for `StdEncoding.Encode`: "Man", "Ma" and "M". -/
theorem StdEncoding_Encode_vectors :
    StdEncoding.Encode [77, 97, 110] = [84, 87, 70, 117] ∧
      StdEncoding.Encode [77, 97] = [84, 87, 69, 61] ∧
      StdEncoding.Encode [77] = [84, 81, 61, 61] := by
  decide

/-- C1 at a concrete input: a fresh provider fails on a chain without a trusted root
and keeps its (empty) cache. -/
theorem C1_error_leaves_cache_witness :
    (KeyProvider.FetchKeys sampleX509 RawRootCAFetcher.impl freshProvider unrelatedSig).ret =
        Return.err errNotFromApple ∧
      (KeyProvider.FetchKeys sampleX509 RawRootCAFetcher.impl freshProvider
        unrelatedSig).provider.trusted = freshProvider.trusted :=
  ⟨by decide,
    C1_error_leaves_cache sampleX509 RawRootCAFetcher.impl freshProvider unrelatedSig
      errNotFromApple (by decide)⟩

/-- C2 at a concrete input: leaf `[76]`, intermediate `[73]`, root `[82]` against the static
source holding `[82]`. -/
theorem C2_full_validation_succeeds_witness :
    (KeyProvider.FetchKeys sampleX509 RawRootCAFetcher.impl freshProvider goodSig).ret =
        Return.nil ∧
      (KeyProvider.FetchKeys sampleX509 RawRootCAFetcher.impl freshProvider goodSig).sink =
        [("ES256", some [76, 7])] ∧
      (KeyProvider.FetchKeys sampleX509 RawRootCAFetcher.impl freshProvider
        goodSig).provider.trusted = ⟨[76], some [76, 7]⟩ :=
  C2_full_validation_succeeds sampleX509 RawRootCAFetcher.impl freshProvider goodSig
    [76] [[73], [82]] [76] rfl (by decide) (by decide) (by decide) (by decide) (by decide)
    (by
      intro opts h1 _
      have hmem : ([82] : Bytes) ∈ opts.Roots :=
        (h1 [82]).mpr ⟨([82], ⟨some [[82]], none⟩), by decide, by decide, by decide⟩
      have hne : opts.Roots ≠ [] := List.ne_nil_of_mem hmem
      simp [sampleX509, hne])

/-- C3 as stated fails: after a validated call on `goodSig` the cache holds the leaf
`[76]`; on the chain `[76], [88]` every entry parses, every `Fetch` succeeds and no entry at
index 1 or above equals a root, yet the call returns nil and delivers the cached key. -/
theorem C3_counterexample :
    (KeyProvider.FetchKeys sampleX509 RawRootCAFetcher.impl freshProvider goodSig).ret =
        Return.nil ∧
      (∀ e ∈ unrelatedSig.X509CertChain, (sampleX509.certOf e).isSome = true) ∧
      (∀ r ∈ RawRootCAFetcher.impl.results providerAfterGood.fetcher
        unrelatedSig.X509CertChain.tail.length, r.err = none) ∧
      (∀ pr ∈ ancestors RawRootCAFetcher.impl providerAfterGood.fetcher
        unrelatedSig.X509CertChain, pr.1 ∉ pr.2.rootCAs.elems) ∧
      (KeyProvider.FetchKeys sampleX509 RawRootCAFetcher.impl providerAfterGood
        unrelatedSig).ret = Return.nil ∧
      (KeyProvider.FetchKeys sampleX509 RawRootCAFetcher.impl providerAfterGood
        unrelatedSig).sink = [("ES256", some [76, 7])] := by
  decide

/-- C3 (amended) at a concrete input: a fresh provider on the chain `[76], [88]`. -/
theorem C3_no_root_no_cache_hit_witness :
    (KeyProvider.FetchKeys sampleX509 RawRootCAFetcher.impl freshProvider unrelatedSig).ret =
        Return.err errNotFromApple ∧
      (KeyProvider.FetchKeys sampleX509 RawRootCAFetcher.impl freshProvider
        unrelatedSig).verified = none ∧
      (KeyProvider.FetchKeys sampleX509 RawRootCAFetcher.impl freshProvider
        unrelatedSig).sink = [] :=
  C3_no_root_no_cache_hit sampleX509 RawRootCAFetcher.impl freshProvider unrelatedSig
    (by decide) (by decide) (by decide) (by decide)

/-- C4 as stated fails: with `[88]` cached by a validated call on `otherSig`, a call on
the chain `[65], [66], [88]` succeeds through the cache at index 2 and delivers the cached
key; the immediately following call on the same chain, with a source whose every `Fetch`
fails, returns the source's error and delivers nothing. -/
theorem C4_counterexample :
    (KeyProvider.FetchKeys sampleX509 RawRootCAFetcher.impl freshProvider otherSig).ret =
        Return.nil ∧
      (KeyProvider.FetchKeys sampleX509 RawRootCAFetcher.impl providerAfterOther deepSig).ret =
        Return.nil ∧
      (KeyProvider.FetchKeys sampleX509 RawRootCAFetcher.impl providerAfterOther deepSig).sink =
        [("ES256", some [88, 7])] ∧
      (KeyProvider.FetchKeys sampleX509 failingFetcher
        ⟨(KeyProvider.FetchKeys sampleX509 RawRootCAFetcher.impl providerAfterOther
          deepSig).provider.trusted, ()⟩ deepSig).ret = Return.err (Error.external 3) ∧
      (KeyProvider.FetchKeys sampleX509 failingFetcher
        ⟨(KeyProvider.FetchKeys sampleX509 RawRootCAFetcher.impl providerAfterOther
          deepSig).provider.trusted, ()⟩ deepSig).sink = [] := by
  decide

/-- C4 (amended) at a concrete input: a validated call on `goodSig`, then the same chain
with a source whose every `Fetch` fails. -/
theorem C4_repeat_ignores_source_witness :
    ∃ k, (KeyProvider.FetchKeys sampleX509 RawRootCAFetcher.impl freshProvider goodSig).sink =
        [(goodSig.Algorithm, k)] ∧
      (KeyProvider.FetchKeys sampleX509 failingFetcher
        ⟨(KeyProvider.FetchKeys sampleX509 RawRootCAFetcher.impl freshProvider
          goodSig).provider.trusted, ()⟩ goodSig).ret = Return.nil ∧
      (KeyProvider.FetchKeys sampleX509 failingFetcher
        ⟨(KeyProvider.FetchKeys sampleX509 RawRootCAFetcher.impl freshProvider
          goodSig).provider.trusted, ()⟩ goodSig).sink = [(goodSig.Algorithm, k)] :=
  C4_repeat_ignores_source sampleX509 sampleX509 RawRootCAFetcher.impl failingFetcher
    freshProvider () goodSig rfl rfl (by decide) (by decide)

/-- C7 at a concrete input: after a successful `Fetch` of `a.cer` and `b.cer`, two later
calls made while `b.cer` is unreadable return the same two entries and read nothing. -/
theorem C7_file_fetch_is_cached_witness :
    (NewFileRootCAFetcher "a.cer" ["b.cer"]).paths ≠ [] ∧
      (FileRootCAFetcher.Fetch sampleFS (NewFileRootCAFetcher "a.cer" ["b.cer"])
        false).result.err = none ∧
      ∀ run ∈ FileRootCAFetcher.runs sampleFS
          (FileRootCAFetcher.Fetch sampleFS (NewFileRootCAFetcher "a.cer" ["b.cer"])
            false).fetcher [true, true],
        run.result = (FileRootCAFetcher.Fetch sampleFS (NewFileRootCAFetcher "a.cer" ["b.cer"])
            false).result ∧ run.result.err = none ∧ run.reads = [] :=
  ⟨by decide, by decide,
    C7_file_fetch_is_cached sampleFS (NewFileRootCAFetcher "a.cer" ["b.cer"]) false
      [true, true] (by decide) (by decide)⟩

/-- C8 at concrete inputs: with URLs `u1`, `u2`, `bad`, `u1` the third fetch fails and the
first two encoded bodies come back with the error after three requests; with URLs `u1`,
`u2` both encoded bodies come back with no error. -/
theorem C8_http_fetch_in_order_witness :
    HTTPRootCAFetcher.Fetch sampleHTTP (NewHTTPRootCAFetcher "u1" ["u2", "bad", "u1"]) 0 =
        ⟨⟨some ([[77, 97, 110], [77, 97]].map StdEncoding.Encode), some (Error.external 5)⟩,
          ["u1", "u2"] ++ ["bad"], 3⟩ ∧
      HTTPRootCAFetcher.Fetch sampleHTTP (NewHTTPRootCAFetcher "u1" ["u2"]) 0 =
        ⟨⟨some ([[77, 97, 110], [77, 97]].map StdEncoding.Encode), none⟩,
          (NewHTTPRootCAFetcher "u1" ["u2"]).urls, 2⟩ :=
  ⟨(C8_http_fetch_in_order sampleHTTP (NewHTTPRootCAFetcher "u1" ["u2", "bad", "u1"]) 0).1
      ["u1", "u2"] "bad" ["u1"] [[77, 97, 110], [77, 97]] 2 3 (Error.external 5)
      (by decide) (by decide) rfl,
    (C8_http_fetch_in_order sampleHTTP (NewHTTPRootCAFetcher "u1" ["u2"]) 0).2
      [[77, 97, 110], [77, 97]] 2 (by decide)⟩

/-- C9 at a concrete input: the chain of `goodSig` with a source whose `Fetch` fails. -/
theorem C9_fetch_error_surfaces_witness :
    (KeyProvider.FetchKeys sampleX509 failingFetcher
        (NewKeyProvider () : KeyProvider Bytes Unit) goodSig).ret =
        Return.err (Error.external 3) ∧
      (KeyProvider.FetchKeys sampleX509 failingFetcher
        (NewKeyProvider () : KeyProvider Bytes Unit) goodSig).verified = none ∧
      (KeyProvider.FetchKeys sampleX509 failingFetcher
        (NewKeyProvider () : KeyProvider Bytes Unit) goodSig).sink = [] ∧
      (KeyProvider.FetchKeys sampleX509 failingFetcher
        (NewKeyProvider () : KeyProvider Bytes Unit) goodSig).provider.trusted =
        (NewKeyProvider () : KeyProvider Bytes Unit).trusted :=
  C9_fetch_error_surfaces sampleX509 failingFetcher (NewKeyProvider ()) goodSig
    [76] [73] [[82]] (Error.external 3) rfl (by decide) (by decide) (by decide) (by decide)
    rfl

/-- C10 as stated fails: on the chain `[82], [82]` against the static source holding `[82]`
the run reaches path validation of the index-0 certificate `[82]`, and that certificate
is in the roots pool handed to validation. -/
theorem C10_counterexample :
    (KeyProvider.FetchKeys sampleX509 RawRootCAFetcher.impl freshProvider twiceSig).verified =
        some ([82], ⟨[[82]], []⟩) ∧
      twiceSig.X509CertChain.head?.bind sampleX509.certOf = some [82] ∧
      ([82] : Bytes) ∈ (⟨[[82]], []⟩ : VerifyOptions Bytes).Roots := by
  decide

/-- C10 (amended) at a concrete input: `goodSig` on a fresh provider reaches validation
of `[76]` with roots pool `[82]` and intermediates pool `[73]`. -/
theorem C10_pools_of_validation_witness :
    (KeyProvider.FetchKeys sampleX509 RawRootCAFetcher.impl freshProvider goodSig).verified =
        some ([76], ⟨[[82]], [[73]]⟩) ∧
      (goodSig.X509CertChain.head?.bind sampleX509.certOf = some [76] ∧
      (∀ pr ∈ ancestors RawRootCAFetcher.impl freshProvider.fetcher goodSig.X509CertChain,
        (sampleX509.certOf pr.1).isSome = true ∧ pr.2.err = none) ∧
      (∀ c, c ∈ (⟨[[82]], [[73]]⟩ : VerifyOptions Bytes).Roots ↔
        ∃ pr ∈ ancestors RawRootCAFetcher.impl freshProvider.fetcher goodSig.X509CertChain,
          pr.1 ∈ pr.2.rootCAs.elems ∧ sampleX509.certOf pr.1 = some c) ∧
      (∀ c, c ∈ (⟨[[82]], [[73]]⟩ : VerifyOptions Bytes).Intermediates ↔
        ∃ pr ∈ ancestors RawRootCAFetcher.impl freshProvider.fetcher goodSig.X509CertChain,
          pr.1 ∉ pr.2.rootCAs.elems ∧ sampleX509.certOf pr.1 = some c) ∧
      (⟨[[82]], [[73]]⟩ : VerifyOptions Bytes).Roots ≠ []) :=
  ⟨by decide,
    C10_pools_of_validation sampleX509 RawRootCAFetcher.impl freshProvider goodSig [76]
      ⟨[[82]], [[73]]⟩ (by decide)⟩

end Asn
